import Mathlib

/-!
Shallow embedding of `main.py` from the mediathek-downloader repository.

The script queries the MediathekViewWeb feed for configured programs,
parses episode titles with the regex `(.*) \(S(\d+)\/E(\d+)\)`, filters
episodes by age, resolves an on-disk path, deduplicates by file existence,
and dispatches a `wget` download through `os.system`.

External effects (logging, directory creation, shell invocation) are
modelled as an explicit event list; external collaborators (the date
parsing library, the filesystem, the HTTP fetch, the exit status of the
shell) are parameters of the embedded functions.  Machine strings are
Lean `String`s; Python integers are `Int`; `\d` is modelled as the ASCII
digits `0`-`9`.
-/

/-- The single-quote character, written via its code point. -/
def squote : Char := Char.ofNat 39

/-- The single-quote character as a one-character string. -/
def sQ : String := String.mk [squote]

/-- Numeric value of an ASCII digit character. -/
def digitVal (c : Char) : Nat := c.toNat - 48

/-- Decimal value of a list of ASCII digit characters (most significant first). -/
def digitsVal (l : List Char) : Nat := l.foldl (fun n c => n * 10 + digitVal c) 0

/-- Split a character list into its maximal leading run of ASCII digits and the rest.
Models the greedy matching of `\d+` followed by a non-digit literal in the regex. -/
def splitDigits : List Char → List Char × List Char
  | [] => ([], [])
  | c :: cs =>
    if c.isDigit then
      let p := splitDigits cs
      (c :: p.1, p.2)
    else ([], c :: cs)

/-- Attempt to match the tail part ` \(S(\d+)\/E(\d+)\)` of `EPISODE_REGEX` at the
head of the character list, returning the two captured digit groups.  Trailing
characters after the closing parenthesis are permitted, because the regex is not
anchored at the end.  Greedy `\d+` followed by a mandatory non-digit literal is
equivalent to taking the maximal digit run. -/
def parseTail : List Char → Option (List Char × List Char)
  | ' ' :: '(' :: 'S' :: rest =>
    match splitDigits rest with
    | (ds, '/' :: 'E' :: rest2) =>
      if ds.isEmpty then none
      else
        match splitDigits rest2 with
        | (es, ')' :: _) => if es.isEmpty then none else some (ds, es)
        | _ => none
    | _ => none
  | _ => none

/-- Backtracking semantics of `re.match` for `(.*) \(S(\d+)\/E(\d+)\)`: the group
`(.*)` (any characters except newline) is greedy, so the successful split with the
longest base prefix wins; the match is anchored at the start only.  Returns the
three captured groups (base title, season digits, episode digits). -/
def matchGreedy : List Char → Option (List Char × List Char × List Char)
  | [] => none
  | c :: rest =>
    let longer :=
      if c = '\n' then none
      else (matchGreedy rest).map (fun g => (c :: g.1, g.2.1, g.2.2))
    match longer with
    | some g => some g
    | none => (parseTail (c :: rest)).map (fun p => (([] : List Char), p.1, p.2))

/-- `EPISODE_REGEX.match(title)` with the captured groups as strings
(`match.groups()` in `download_program`). -/
def episodeRegexMatch (title : String) : Option (String × String × String) :=
  (matchGreedy title.data).map (fun g => (String.mk g.1, String.mk g.2.1, String.mk g.2.2))

/-- Whitespace characters stripped by Python `int()` around the literal. -/
def isPyWs (c : Char) : Bool :=
  c = ' ' || c = '\t' || c = '\n' || c = '\r' || c = '\x0b' || c = '\x0c'

/-- Digit run of a Python integer literal: digits with optional single
underscores between digits.  Accumulates the decimal value. -/
def pyIntGo (acc : Nat) : List Char → Option Nat
  | [] => some acc
  | [c] => if c.isDigit then some (acc * 10 + digitVal c) else none
  | c :: c2 :: cs =>
    if c.isDigit then pyIntGo (acc * 10 + digitVal c) (c2 :: cs)
    else if c = '_' && c2.isDigit then pyIntGo (acc * 10 + digitVal c2) cs
    else none

/-- Unsigned part of a Python integer literal: at least one leading digit. -/
def pyIntCore : List Char → Option Nat
  | [] => none
  | c :: cs => if c.isDigit then pyIntGo (digitVal c) cs else none

/-- Model of Python `int(s)` on decimal strings: strip surrounding whitespace,
accept an optional sign, then digits with optional single underscores;
any other input raises `ValueError`, modelled as `none`. -/
def pyInt (s : String) : Option Int :=
  let l := ((s.data.dropWhile isPyWs).reverse.dropWhile isPyWs).reverse
  match l with
  | [] => none
  | c :: rest =>
    if c = '+' then (pyIntCore rest).map Int.ofNat
    else if c = '-' then (pyIntCore rest).map (fun n => -(n : Int))
    else (pyIntCore (c :: rest)).map Int.ofNat

/-- Fuel-driven decimal rendering of a natural number (the fuel is an upper
bound on the digit count; `n + 1` always suffices). -/
def natStrGo : Nat → Nat → List Char
  | 0, _ => []
  | fuel + 1, n =>
    if n < 10 then [Char.ofNat (48 + n)]
    else natStrGo fuel (n / 10) ++ [Char.ofNat (48 + n % 10)]

/-- Decimal rendering of a natural number, model of Python `str` on `int`. -/
def natStr (n : Nat) : String := String.mk (natStrGo (n + 1) n)

/-- Decimal rendering of an integer, model of Python `str` on `int`. -/
def intStr (n : Int) : String :=
  if n < 0 then "-" ++ natStr n.natAbs else natStr n.natAbs

/-- Python format specifier `{n:02d}`: pad the decimal rendering with zeros to a
total width of two characters, the sign included; longer renderings are kept in
full. -/
def pad2 (n : Int) : String :=
  if n < 0 then "-" ++ natStr n.natAbs
  else if (natStr n.natAbs).data.length < 2 then "0" ++ natStr n.natAbs
  else natStr n.natAbs

/-- Python `base_title.replace(" - ", ": ")`: left-to-right replacement of
non-overlapping occurrences. -/
def replaceDash : List Char → List Char
  | ' ' :: '-' :: ' ' :: rest => ':' :: ' ' :: replaceDash rest
  | c :: rest => c :: replaceDash rest
  | [] => []

/-- String form of the base-title normalization. -/
def replaceDashStr (s : String) : String := String.mk (replaceDash s.data)

/-- The formatted title of `download_program`:
`f"{base_title.replace(' - ', ': ')} - S{season:02d}E{episode:02d}"`,
where `season` has already had the season offset subtracted. -/
def formattedTitle (baseTitle : String) (season episode : Int) : String :=
  replaceDashStr baseTitle ++ " - S" ++ pad2 season ++ "E" ++ pad2 episode

/-- Season number after the per-program correction, line
`season = int(season_str) - season_offset`. -/
def appliedSeason (feedSeason seasonOffset : Int) : Int := feedSeason - seasonOffset

/-- Python `link.split(".")[-1]`: the text after the last dot, or the whole
string when no dot occurs. -/
def lastDotComponent (s : String) : String :=
  String.mk ((s.data.reverse.takeWhile (fun c => c ≠ '.')).reverse)

/-- Python `full_file_path.replace("'", "'\\''")`: each single quote becomes
quote, backslash, quote, quote. -/
def escQuotes : List Char → List Char
  | [] => []
  | c :: cs =>
    if c = squote then squote :: '\\' :: squote :: squote :: escQuotes cs
    else c :: escQuotes cs

/-- String form of the single-quote escaping applied to the output path. -/
def escapeSingleQuotes (s : String) : String := String.mk (escQuotes s.data)

/-- The command line built by `download_program`:
`f"wget {rate_limit_arg} '{episode_link}' -O '{escaped_full_file_path}'"`.
Note that the link is embedded verbatim; only the path is quote-escaped. -/
def buildCommand (rateArg link path : String) : String :=
  "wget " ++ rateArg ++ " " ++ sQ ++ link ++ sQ ++ " -O " ++ sQ ++ escapeSingleQuotes path ++ sQ

/-- Observable effects of the script: leveled log lines, directory creation
(`os.makedirs`) and shell invocation (`os.system`). -/
inductive Event where
  | logDebug (msg : String)
  | logInfo (msg : String)
  | logWarn (msg : String)
  | logError (msg : String)
  | logSuccess (msg : String)
  | mkdirs (dir : String)
  | system (cmd : String)
deriving DecidableEq

/-- Which branch of the per-item loop of `download_program` handled the item. -/
inductive ItemOutcome where
  | missingTags
  | noMatch
  | malformedNumbers
  | malformedDate
  | tooOld
  | alreadyDownloaded
  | dispatched
deriving DecidableEq

/-- One `<item>` of the feed; each child tag may be absent. -/
structure FeedItem where
  title : Option String
  category : Option String
  pubDate : Option String
  link : Option String

/-- One entry of the `programs` list of the configuration, after the defaults
of lines 59-62 of `main.py` are applied. -/
structure ProgramConfig where
  name : String
  minLength : Int
  seasonOffset : Int
  maxAgeDays : Int

/-- The age test of line 125: the item is skipped when
`pub_date_utc < now - timedelta(days=max_age_days)`, with timestamps in
seconds (one day is 86400 seconds). -/
def tooOld (now maxAgeDays pub : Int) : Bool := pub < now - maxAgeDays * 86400

/-- Filesystem-write and shell events of an event list (everything except
log lines). -/
def effectsOf (evs : List Event) : List Event :=
  evs.filter (fun e =>
    match e with
    | Event.mkdirs _ => true
    | Event.system _ => true
    | _ => false)

/-- Lines 137-158 of `main.py`: the existence check, directory creation,
command construction, `os.system` call and the unconditional success log.
The exit status returned by the shell (`runStatus`) is discarded, exactly as
`os.system`'s return value is ignored in the source. -/
def dispatchStep (fs : String → Bool) (runStatus : String → Int)
    (rateArg link fullPath epFolder fmt : String) : ItemOutcome × List Event :=
  if fs fullPath then
    (ItemOutcome.alreadyDownloaded,
      [Event.logInfo ("Already downloaded: " ++ sQ ++ fmt ++ sQ ++ ".")])
  else
    let cmd := buildCommand rateArg link fullPath
    let _status := runStatus cmd
    (ItemOutcome.dispatched,
      [Event.mkdirs epFolder,
       Event.logInfo ("Downloading " ++ sQ ++ fmt ++ sQ ++ " to " ++ sQ ++ fullPath ++ sQ),
       Event.logDebug ("Executing: " ++ cmd),
       Event.system cmd,
       Event.logSuccess ("Successfully downloaded " ++ sQ ++ fmt ++ sQ ++ ".")])

/-- Lines 87-158 of `main.py`: processing of one feed item.  `parseDate` models
`dateparser.parse` (timestamps as seconds), `now` models
`datetime.datetime.now(tz=pytz.UTC)`, `fs` models `os.path.exists`, and
`runStatus` the exit status of `os.system`. -/
def processItem (parseDate : String → Option Int) (now : Int)
    (fs : String → Bool) (runStatus : String → Int) (cfg : ProgramConfig)
    (outputBase rateArg : String) (item : FeedItem) : ItemOutcome × List Event :=
  match item.title, item.category, item.pubDate, item.link with
  | some title, some category, some pubDateStr, some link =>
    match episodeRegexMatch title with
    | none =>
      (ItemOutcome.noMatch,
        [Event.logDebug ("Skipping " ++ sQ ++ title ++ sQ ++ ": Does not match episode naming pattern.")])
    | some (baseTitle, seasonStr, episodeStr) =>
      match pyInt seasonStr, pyInt episodeStr with
      | some sv, some ev =>
        let season := appliedSeason sv cfg.seasonOffset
        let fmt := formattedTitle baseTitle season ev
        match parseDate pubDateStr with
        | none =>
          (ItemOutcome.malformedDate,
            [Event.logWarn ("Could not parse publication date for " ++ sQ ++ title ++ sQ ++ ". Skipping.")])
        | some pub =>
          if tooOld now cfg.maxAgeDays pub then
            (ItemOutcome.tooOld,
              [Event.logInfo ("Skipping " ++ sQ ++ fmt ++ sQ ++ ": Too old (published on " ++ intStr pub ++ ").")])
          else
            let epFolder := outputBase ++ "/" ++ category ++ "/Season " ++ pad2 season
            let fileName := fmt ++ "." ++ lastDotComponent link
            let fullPath := epFolder ++ "/" ++ fileName
            dispatchStep fs runStatus rateArg link fullPath epFolder fmt
      | _, _ =>
        (ItemOutcome.malformedNumbers,
          [Event.logWarn ("Could not parse season/episode numbers for " ++ sQ ++ title ++ sQ ++ ". Skipping.")])
  | _, _, _, _ =>
    (ItemOutcome.missingTags, [Event.logWarn "Skipping malformed item: missing required tags."])

/-- The fixed feed endpoint prefix, constant `SEARCH_BASE_URL`. -/
def SEARCH_BASE_URL : String := "https://mediathekviewweb.de/feed?query="

/-- Characters `requests.utils.quote` leaves unencoded: the RFC 3986
unreserved characters plus the default safe character `/`. -/
def isQuoteSafe (c : Char) : Bool :=
  c.isAlpha || c.isDigit || c = '_' || c = '.' || c = '-' || c = '~' || c = '/'

/-- Uppercase hexadecimal digit. -/
def hexDigitChar (n : Nat) : Char :=
  if n < 10 then Char.ofNat (48 + n) else Char.ofNat (55 + n)

/-- UTF-8 encoding of one code point. -/
def utf8Bytes (c : Char) : List Nat :=
  let u := c.toNat
  if u < 128 then [u]
  else if u < 2048 then [192 + u / 64, 128 + u % 64]
  else if u < 65536 then [224 + u / 4096, 128 + (u / 64) % 64, 128 + u % 64]
  else [240 + u / 262144, 128 + (u / 4096) % 64, 128 + (u / 64) % 64, 128 + u % 64]

/-- Percent-encoding of one byte, uppercase hex. -/
def percentByte (b : Nat) : List Char :=
  ['%', hexDigitChar (b / 16), hexDigitChar (b % 16)]

/-- Model of `requests.utils.quote` with the default safe set: safe characters
kept, every other character percent-encoded bytewise in UTF-8. -/
def urlQuote (s : String) : String :=
  String.mk (s.data.foldr
    (fun c acc => (if isQuoteSafe c then [c] else (utf8Bytes c).foldr (fun b a => percentByte b ++ a) []) ++ acc) [])

/-- Lines 67-69: the query string, with the minimum-length filter appended
only when `min_length > 0`. -/
def searchQuery (name : String) (minLength : Int) : String :=
  let q := "# " ++ name
  if 0 < minLength then q ++ " >" ++ intStr minLength else q

/-- An HTTP GET request as issued by `download_program`. -/
structure FetchRequest where
  url : String
  timeout : Nat
deriving DecidableEq

/-- Lines 67-75: the request built for a program (URL-encoded query appended
to the fixed base URL, ten-second timeout). -/
def fetchRequest (name : String) (minLength : Int) : FetchRequest :=
  ⟨SEARCH_BASE_URL ++ urlQuote (searchQuery name minLength), 10⟩

/-- Lines 50-158 of `main.py`: processing of one configured program.  `fetch`
models the HTTP GET plus XML parsing, `Except.error` being a
`requests.exceptions.RequestException`. -/
def downloadProgram (parseDate : String → Option Int) (now : Int)
    (fs : String → Bool) (runStatus : String → Int)
    (fetch : String → Except String (List FeedItem))
    (cfg : ProgramConfig) (outputBase rateArg : String) : List Event :=
  let url := (fetchRequest cfg.name cfg.minLength).url
  let pre := [Event.logInfo ("Processing program: " ++ cfg.name),
              Event.logDebug ("Search URL: " ++ url)]
  match fetch url with
  | Except.error e =>
    pre ++ [Event.logError ("Failed to fetch data for " ++ cfg.name ++ ": " ++ e)]
  | Except.ok items =>
    if items.isEmpty then
      pre ++ [Event.logWarn ("No episodes found for " ++ sQ ++ cfg.name ++ sQ ++ ". Check the program name or filters.")]
    else
      pre ++ (items.map (fun it =>
        (processItem parseDate now fs runStatus cfg outputBase rateArg it).2)).flatten

/-- The whole configuration file after YAML loading. -/
structure Config where
  rateLimit : Option String
  programs : List ProgramConfig

/-- The command-line arguments of `parse_arguments`. -/
structure Args where
  out : String
  unlimited : Bool

/-- Python truthiness of the optional rate-limit value. -/
def truthyOpt : Option String → Bool
  | none => false
  | some s => !s.isEmpty

/-- The names bound at module level in `main.py`: the imports of lines 1-12
and the module-level definitions.  `import logging` is absent. -/
def boundNames : List String :=
  ["argparse", "datetime", "os", "re", "sys", "dateparser", "pytz", "requests",
   "yaml", "BeautifulSoup", "logger", "parse_arguments", "load_config",
   "SEARCH_BASE_URL", "EPISODE_REGEX", "download_program", "main"]

/-- Python name resolution at module scope: referencing an unbound name raises
`NameError`. -/
def resolveName (n : String) : Except String Unit :=
  if n ∈ boundNames then Except.ok ()
  else Except.error ("NameError: name " ++ sQ ++ n ++ sQ ++ " is not defined")

/-- Lines 161-180 of `main.py` after a successful configuration load: compute
the rate-limit argument, then log the rate-limit decision.  All three branches
of lines 169-174 call `logging.info` or `logging.warning`, so each resolves the
name `logging` first; afterwards the base folder is created and every program
is processed. -/
def mainRun (cfg : Config) (args : Args) (parseDate : String → Option Int)
    (now : Int) (fs : String → Bool) (runStatus : String → Int)
    (fetch : String → Except String (List FeedItem)) : Except String (List Event) :=
  let rateArg :=
    if !args.unlimited && truthyOpt cfg.rateLimit then
      "--limit-rate=" ++ cfg.rateLimit.getD ""
    else ""
  match resolveName "logging" with
  | Except.error e => Except.error e
  | Except.ok _ =>
    Except.ok (Event.mkdirs args.out ::
      (cfg.programs.map (fun p =>
        downloadProgram parseDate now fs runStatus fetch p args.out rateArg)).flatten)

/-- A word splitter for the POSIX shell fragment relevant to the built command:
blanks separate words, single quotes protect their content verbatim, a
backslash outside quotes escapes the next character.  `none` on an unterminated
quote or a trailing backslash.  The state is (inside-single-quote,
current-word-started, current word reversed, finished words reversed). -/
def shellSplitAux : Bool → Bool → List Char → List String → List Char → Option (List String)
  | true, _, _, _, [] => none
  | false, started, cur, acc, [] =>
    some ((if started then String.mk cur.reverse :: acc else acc).reverse)
  | true, _, cur, acc, c :: cs =>
    if c = squote then shellSplitAux false true cur acc cs
    else shellSplitAux true true (c :: cur) acc cs
  | false, started, cur, acc, c :: cs =>
    if c = squote then shellSplitAux true true cur acc cs
    else if c = '\\' then
      match cs with
      | [] => none
      | d :: ds => shellSplitAux false true (d :: cur) acc ds
    else if c = ' ' || c = '\t' then
      if started then shellSplitAux false false [] (String.mk cur.reverse :: acc) cs
      else shellSplitAux false false [] acc cs
    else shellSplitAux false true (c :: cur) acc cs

/-- Split a command string into the words the shell would hand to `execve`. -/
def shellSplit (s : String) : Option (List String) :=
  shellSplitAux false false [] [] s.data

/-- Whether a character list contains a space immediately followed by an
opening parenthesis, the only place a match of the regex tail can begin. -/
def hasSpaceParen : List Char → Bool
  | [] => false
  | [_] => false
  | c :: d :: rest => (c = ' ' && d = '(') || hasSpaceParen (d :: rest)
/-- A digit character is not a space, a newline, a plus, a minus or a parenthesis. -/
lemma digit_ne (c : Char) (h : c.isDigit = true) :
    c ≠ ' ' ∧ c ≠ '\n' ∧ c ≠ '(' ∧ c ≠ '+' ∧ c ≠ '-' := by
  refine ⟨?_, ?_, ?_, ?_, ?_⟩ <;> rintro rfl <;> simp [Char.isDigit] at h

/-- Splitting a digit run followed by a non-digit boundary recovers the run. -/
lemma splitDigits_append (ds r : List Char) (h1 : ∀ c ∈ ds, c.isDigit = true)
    (h2 : ∀ c, r.head? = some c → c.isDigit = false) :
    splitDigits (ds ++ r) = (ds, r) := by
  induction ds with
  | nil =>
    cases r with
    | nil => rfl
    | cons c cs =>
      have := h2 c rfl
      simp [splitDigits, this]
  | cons d ds ih =>
    have hd : d.isDigit = true := h1 d (List.mem_cons_self d ds)
    have : splitDigits (ds ++ r) = (ds, r) :=
      ih (fun c hc => h1 c (List.mem_cons_of_mem d hc))
    simp [splitDigits, hd, this]

/-- `splitDigits` decomposes its input and returns only digits. -/
lemma splitDigits_sound (l : List Char) :
    (splitDigits l).1 ++ (splitDigits l).2 = l ∧ ∀ c ∈ (splitDigits l).1, c.isDigit = true := by
  induction l with
  | nil => simp [splitDigits]
  | cons c cs ih =>
    by_cases hc : c.isDigit = true
    · simp only [splitDigits, hc, if_pos]
      constructor
      · simpa using ih.1
      · intro x hx
        simp only [List.mem_cons] at hx
        rcases hx with rfl | hx
        · exact hc
        · exact ih.2 x hx
    · simp [splitDigits, hc]

/-- A successful tail match forces the leading literal characters. -/
lemma parseTail_shape (l : List Char) (r : List Char × List Char)
    (h : parseTail l = some r) : ∃ t, l = ' ' :: '(' :: 'S' :: t := by
  match l with
  | [] => simp [parseTail] at h
  | [c] => simp [parseTail] at h
  | [c, d] => simp [parseTail] at h
  | c :: d :: e :: t =>
    by_cases h1 : c = ' ' ∧ d = '(' ∧ e = 'S'
    · exact ⟨t, by rw [h1.1, h1.2.1, h1.2.2]⟩
    · exfalso
      unfold parseTail at h
      split at h
      · rename_i heq
        injection heq with hc heq
        injection heq with hd heq
        injection heq with he _
        exact h1 ⟨hc, hd, he⟩
      · exact Option.noConfusion h

/-- Completeness of the tail matcher on a well-formed tail. -/
lemma parseTail_complete (ds es rest : List Char)
    (hd1 : ds ≠ []) (hd2 : ∀ c ∈ ds, c.isDigit = true)
    (he1 : es ≠ []) (he2 : ∀ c ∈ es, c.isDigit = true) :
    parseTail (' ' :: '(' :: 'S' :: (ds ++ '/' :: 'E' :: (es ++ ')' :: rest)))
      = some (ds, es) := by
  have h1 : splitDigits (ds ++ '/' :: 'E' :: (es ++ ')' :: rest))
      = (ds, '/' :: 'E' :: (es ++ ')' :: rest)) := by
    apply splitDigits_append ds _ hd2
    intro c hc
    simp only [List.head?_cons, Option.some.injEq] at hc
    subst hc; decide
  have h2 : splitDigits (es ++ ')' :: rest) = (es, ')' :: rest) := by
    apply splitDigits_append es _ he2
    intro c hc
    simp only [List.head?_cons, Option.some.injEq] at hc
    subst hc; decide
  have hde : ds.isEmpty = false := by cases ds with
    | nil => exact absurd rfl hd1
    | cons _ _ => rfl
  have hee : es.isEmpty = false := by cases es with
    | nil => exact absurd rfl he1
    | cons _ _ => rfl
  simp only [parseTail]
  rw [h1]
  simp only [hde, Bool.false_eq_true, if_false]
  rw [h2]
  simp [hee]

/-- Soundness of the tail matcher: a success exhibits the matched structure. -/
lemma parseTail_sound (l : List Char) (ds es : List Char)
    (h : parseTail l = some (ds, es)) :
    ds ≠ [] ∧ (∀ c ∈ ds, c.isDigit = true) ∧ es ≠ [] ∧ (∀ c ∈ es, c.isDigit = true) ∧
    ∃ rest, l = ' ' :: '(' :: 'S' :: (ds ++ '/' :: 'E' :: (es ++ ')' :: rest)) := by
  obtain ⟨t, rfl⟩ := parseTail_shape l (ds, es) h
  simp only [parseTail] at h
  rcases hq : splitDigits t with ⟨d0, r0⟩
  have hdec := splitDigits_sound t
  rw [hq] at h hdec
  simp only at hdec
  split at h
  · rename_i ds1 rest2 heq
    injection heq with heq1 heq2
    subst heq1
    split at h
    · exact Option.noConfusion h
    · rename_i hde
      rcases hq2 : splitDigits rest2 with ⟨e0, r2⟩
      have hdec2 := splitDigits_sound rest2
      rw [hq2] at h hdec2
      simp only at hdec2
      split at h
      · rename_i es1 tail2 heq3
        injection heq3 with heq4 heq5
        subst heq4
        split at h
        · exact Option.noConfusion h
        · rename_i hee
          injection h with h
          injection h with hds hes
          subst hds; subst hes
          refine ⟨?_, hdec.2, ?_, hdec2.2, tail2, ?_⟩
          · intro hnil; rw [hnil] at hde; exact hde rfl
          · intro hnil; rw [hnil] at hee; exact hee rfl
          · rw [← hdec.1, heq2, ← hdec2.1, heq5]
      · exact Option.noConfusion h
  · exact Option.noConfusion h

/-- Lists without a space are free of the space-parenthesis pair. -/
lemma hasSpaceParen_of_no_space (l : List Char) (h : ' ' ∉ l) :
    hasSpaceParen l = false := by
  induction l with
  | nil => rfl
  | cons c cs ih =>
    cases cs with
    | nil => rfl
    | cons d ds =>
      have hc : c ≠ ' ' := fun hc => h (hc ▸ List.mem_cons_self c _)
      have : hasSpaceParen (d :: ds) = false :=
        ih (fun hm => h (List.mem_cons_of_mem c hm))
      simp [hasSpaceParen, this]
      intro hcs
      exact absurd hcs hc

/-- Lists without an opening parenthesis are free of the space-parenthesis pair. -/
lemma hasSpaceParen_of_no_paren (l : List Char) (h : '(' ∉ l) :
    hasSpaceParen l = false := by
  induction l with
  | nil => rfl
  | cons c cs ih =>
    cases cs with
    | nil => rfl
    | cons d ds =>
      have hd : d ≠ '(' := fun hd =>
        h (hd ▸ List.mem_cons_of_mem c (List.mem_cons_self d ds))
      have : hasSpaceParen (d :: ds) = false :=
        ih (fun hm => h (List.mem_cons_of_mem c hm))
      simp [hasSpaceParen, this]
      intro _
      exact hd

/-- The space-parenthesis pair is absent from an append when the first part has
no space and the second no pair. -/
lemma hasSpaceParen_append (a b : List Char) (ha : ' ' ∉ a)
    (hb : hasSpaceParen b = false) : hasSpaceParen (a ++ b) = false := by
  induction a with
  | nil => simpa using hb
  | cons c a ih =>
    have hc : c ≠ ' ' := fun hc => ha (hc ▸ List.mem_cons_self c _)
    have htail : hasSpaceParen (a ++ b) = false :=
      ih (fun hm => ha (List.mem_cons_of_mem c hm))
    cases hab : a ++ b with
    | nil => simp [List.cons_append, hab, hasSpaceParen]
    | cons d ds =>
      rw [List.cons_append, hab]
      rw [hab] at htail
      simp [hasSpaceParen, htail]
      intro hcs
      exact absurd hcs hc

/-- Where no space-parenthesis pair occurs, the regex cannot match at all. -/
lemma matchGreedy_none (l : List Char) (h : hasSpaceParen l = false) :
    matchGreedy l = none := by
  induction l with
  | nil => rfl
  | cons c cs ih =>
    have hpt : parseTail (c :: cs) = none := by
      cases hpt : parseTail (c :: cs) with
      | none => rfl
      | some r =>
        obtain ⟨t, ht⟩ := parseTail_shape _ r hpt
        injection ht with h1 h2
        subst h1
        cases cs with
        | nil => exact List.noConfusion h2
        | cons d ds =>
          injection h2 with h3 _
          subst h3
          simp [hasSpaceParen] at h
    have hcs : hasSpaceParen cs = false := by
      cases cs with
      | nil => rfl
      | cons d ds =>
        simp only [hasSpaceParen, Bool.or_eq_false_iff] at h
        exact h.2
    simp [matchGreedy, ih hcs, hpt]

/-- One-step unfolding of the greedy matcher on a cons cell. -/
lemma matchGreedy_cons (c : Char) (cs : List Char) :
    matchGreedy (c :: cs) =
      match (if c = '\n' then none
             else (matchGreedy cs).map (fun g => (c :: g.1, g.2.1, g.2.2))) with
      | some g => some g
      | none => (parseTail (c :: cs)).map (fun p => (([] : List Char), p.1, p.2)) := rfl

/-- Completeness and greediness of the match: a base free of newlines followed
by a well-formed tail matches, the base being the full prefix whenever no later
match start exists inside the tail remainder. -/
lemma matchGreedy_complete (base ds es rest : List Char)
    (hb : '\n' ∉ base) (hd1 : ds ≠ []) (hd2 : ∀ c ∈ ds, c.isDigit = true)
    (he1 : es ≠ []) (he2 : ∀ c ∈ es, c.isDigit = true)
    (hsp : hasSpaceParen ('(' :: 'S' :: (ds ++ '/' :: 'E' :: (es ++ ')' :: rest))) = false) :
    matchGreedy (base ++ ' ' :: '(' :: 'S' :: (ds ++ '/' :: 'E' :: (es ++ ')' :: rest)))
      = some (base, ds, es) := by
  induction base with
  | nil =>
    rw [List.nil_append, matchGreedy_cons]
    rw [if_neg (by decide : ¬ (' ' = '\n'))]
    rw [matchGreedy_none _ hsp]
    rw [parseTail_complete ds es rest hd1 hd2 he1 he2]
    rfl
  | cons c base ih =>
    have hc : c ≠ '\n' := fun hc => hb (hc ▸ List.mem_cons_self c _)
    have hbase : '\n' ∉ base := fun hm => hb (List.mem_cons_of_mem c hm)
    rw [List.cons_append, matchGreedy_cons, if_neg hc, ih hbase]
    rfl

/-- Soundness of the greedy matcher: any success decomposes the input as a
newline-free base, the literal tail with two nonempty digit groups, and an
arbitrary remainder. -/
lemma matchGreedy_sound (l : List Char) (b ds es : List Char)
    (h : matchGreedy l = some (b, ds, es)) :
    '\n' ∉ b ∧ ds ≠ [] ∧ (∀ c ∈ ds, c.isDigit = true) ∧
    es ≠ [] ∧ (∀ c ∈ es, c.isDigit = true) ∧
    ∃ rest, l = b ++ ' ' :: '(' :: 'S' :: (ds ++ '/' :: 'E' :: (es ++ ')' :: rest)) := by
  induction l generalizing b ds es with
  | nil => exact Option.noConfusion h
  | cons c cs ih =>
    rw [matchGreedy_cons] at h
    rcases hL : (if c = '\n' then none
        else (matchGreedy cs).map (fun g => (c :: g.1, g.2.1, g.2.2))) with _ | g
    · rw [hL] at h
      cases hpt : parseTail (c :: cs) with
      | none => rw [hpt] at h; exact Option.noConfusion h
      | some p =>
        rw [hpt] at h
        obtain ⟨p1, p2⟩ := p
        simp only [Option.map_some'] at h
        injection h with h
        simp only [Prod.mk.injEq] at h
        obtain ⟨hb, hd, he⟩ := h
        subst hb; subst hd; subst he
        obtain ⟨hd1, hd2, he1, he2, rest, hdec⟩ := parseTail_sound _ _ _ hpt
        exact ⟨by simp, hd1, hd2, he1, he2, rest, by rw [List.nil_append]; exact hdec⟩
    · rw [hL] at h
      injection h with h
      subst h
      by_cases hc : c = '\n'
      · rw [if_pos hc] at hL; exact Option.noConfusion hL
      · rw [if_neg hc] at hL
        cases hm : matchGreedy cs with
        | none => rw [hm] at hL; exact Option.noConfusion hL
        | some g0 =>
          rw [hm] at hL
          obtain ⟨b0, d0, e0⟩ := g0
          simp only [Option.map_some'] at hL
          injection hL with hL
          simp only [Prod.mk.injEq] at hL
          obtain ⟨hb, hd, he⟩ := hL
          subst hd; subst he
          obtain ⟨ihnl, ihd1, ihd2, ihe1, ihe2, rest, hdec⟩ := ih b0 d0 e0 hm
          refine ⟨?_, ihd1, ihd2, ihe1, ihe2, rest, ?_⟩
          · rw [← hb]
            intro hmem
            rcases List.mem_cons.mp hmem with hh | hh
            · exact hc hh.symm
            · exact ihnl hh
          · rw [← hb, hdec, List.cons_append]

/-- String append acts on the underlying character lists. -/
lemma str_data_append (a b : String) : (a ++ b).data = a.data ++ b.data := rfl

/-- Rebuilding a string from its character list is the identity. -/
lemma str_mk_data (s : String) : String.mk s.data = s := rfl

/-- A digit is not an underscore. -/
lemma digit_ne_underscore (c : Char) (h : c.isDigit = true) : c ≠ '_' := by
  rintro rfl; simp [Char.isDigit] at h

/-- One-step unfolding of the integer-literal head check. -/
lemma pyIntCore_cons (c : Char) (cs : List Char) :
    pyIntCore (c :: cs) = if c.isDigit then pyIntGo (digitVal c) cs else none := rfl

/-- On an all-digit run the accumulator loop succeeds with the folded value. -/
lemma pyIntGo_digits : ∀ (cs : List Char) (acc : Nat), (∀ c ∈ cs, c.isDigit = true) →
    pyIntGo acc cs = some (cs.foldl (fun n c => n * 10 + digitVal c) acc)
  | [], acc, _ => rfl
  | [c], acc, h => by
    have hc : c.isDigit = true := h c (List.mem_cons_self c [])
    simp [pyIntGo, hc]
  | c :: c2 :: cs, acc, h => by
    have hc : c.isDigit = true := h c (List.mem_cons_self c (c2 :: cs))
    simp only [pyIntGo, hc, if_pos, List.foldl_cons]
    exact pyIntGo_digits (c2 :: cs) _ (fun x hx => h x (List.mem_cons_of_mem c hx))

/-- A digit is not a whitespace character stripped by `int`. -/
lemma digit_not_pyWs (c : Char) (h : c.isDigit = true) : isPyWs c = false := by
  cases hc : isPyWs c with
  | false => rfl
  | true =>
    exfalso
    simp only [isPyWs, Bool.or_eq_true, decide_eq_true_eq] at hc
    rcases hc with ((((rfl | rfl) | rfl) | rfl) | rfl) | rfl <;> simp [Char.isDigit] at h

/-- Python `int` on a nonempty all-digit string yields its decimal value. -/
lemma pyInt_digits (l : List Char) (h1 : l ≠ []) (h2 : ∀ c ∈ l, c.isDigit = true) :
    pyInt (String.mk l) = some (Int.ofNat (digitsVal l)) := by
  cases l with
  | nil => exact absurd rfl h1
  | cons c cs =>
    have hc : c.isDigit = true := h2 c (List.mem_cons_self c cs)
    have hnostrip : ((((c :: cs).dropWhile isPyWs).reverse.dropWhile isPyWs).reverse) = c :: cs := by
      have hdw : (c :: cs).dropWhile isPyWs = c :: cs := by
        rw [List.dropWhile_cons_of_neg]
        simp [digit_not_pyWs c hc]
      rw [hdw]
      cases hrev : (c :: cs).reverse with
      | nil => exact absurd hrev (by simp)
      | cons d ds =>
        have hd : d ∈ c :: cs := by
          rw [← List.mem_reverse, hrev]; exact List.mem_cons_self d ds
        rw [List.dropWhile_cons_of_neg (by simp [digit_not_pyWs d (h2 d hd)])]
        rw [← hrev, List.reverse_reverse]
    show pyInt ⟨c :: cs⟩ = some (Int.ofNat (digitsVal (c :: cs)))
    unfold pyInt
    simp only [hnostrip]
    rw [if_neg (by exact (digit_ne c hc).2.2.2.1), if_neg (by exact (digit_ne c hc).2.2.2.2)]
    rw [pyIntCore_cons, if_pos hc]
    rw [pyIntGo_digits cs (digitVal c) (fun x hx => h2 x (List.mem_cons_of_mem c hx))]
    simp [digitsVal, List.foldl_cons]

/-- The decimal rendering is never empty when the fuel is positive. -/
lemma natStrGo_len_ge1 (g k : Nat) : 1 ≤ (natStrGo (g + 1) k).length := by
  rw [natStrGo]
  split
  · simp
  · simp

/-- Numbers of at least two decimal digits render with at least two characters. -/
lemma natStrGo_len_ge2 : ∀ fuel m : Nat, m < fuel → 10 ≤ m → 2 ≤ (natStrGo fuel m).length := by
  intro fuel
  induction fuel with
  | zero => intro m hm _; omega
  | succ f ih =>
    intro m hmf h10
    have hnl : ¬ m < 10 := by omega
    rw [natStrGo]
    rw [if_neg hnl]
    have hf1 : 1 ≤ f := by omega
    obtain ⟨f2, rfl⟩ : ∃ f2, f = f2 + 1 := ⟨f - 1, by omega⟩
    have := natStrGo_len_ge1 f2 (m / 10)
    simp only [List.length_append, List.length_cons, List.length_nil]
    omega

/-- A one-digit number renders as its single digit character. -/
lemma natStrGo_single (m : Nat) (h : m < 10) :
    natStrGo (m + 1) m = [Char.ofNat (48 + m)] := by
  rw [natStrGo, if_pos h]

/-- A successful regex match yields nonempty all-digit groups on which
Python `int` succeeds with the literal decimal value. -/
lemma episodeRegexMatch_groups (t b d e : String)
    (h : episodeRegexMatch t = some (b, d, e)) :
    d.data ≠ [] ∧ (∀ c ∈ d.data, c.isDigit = true) ∧
    e.data ≠ [] ∧ (∀ c ∈ e.data, c.isDigit = true) ∧
    pyInt d = some (Int.ofNat (digitsVal d.data)) ∧
    pyInt e = some (Int.ofNat (digitsVal e.data)) := by
  unfold episodeRegexMatch at h
  rcases hmg : matchGreedy t.data with _ | g
  · rw [hmg] at h; exact Option.noConfusion h
  · rw [hmg] at h
    obtain ⟨b0, d0, e0⟩ := g
    simp only [Option.map_some'] at h
    injection h with h
    simp only [Prod.mk.injEq] at h
    obtain ⟨hb, hd, he⟩ := h
    obtain ⟨_, hd1, hd2, he1, he2, _, _⟩ := matchGreedy_sound t.data b0 d0 e0 hmg
    have hdd : d.data = d0 := by rw [← hd]
    have hed : e.data = e0 := by rw [← he]
    refine ⟨?_, ?_, ?_, ?_, ?_, ?_⟩
    · rw [hdd]; exact hd1
    · rw [hdd]; exact hd2
    · rw [hed]; exact he1
    · rw [hed]; exact he2
    · rw [← hd]; exact pyInt_digits d0 hd1 hd2
    · rw [← he]; exact pyInt_digits e0 he1 he2

/-- The regex tail holds no space-parenthesis pair when the digit groups are
digits and the remainder holds no opening parenthesis. -/
lemma no_spaceParen_tail (ds es rest : List Char)
    (hd2 : ∀ c ∈ ds, c.isDigit = true) (he2 : ∀ c ∈ es, c.isDigit = true)
    (hrp : '(' ∉ rest) :
    hasSpaceParen ('(' :: 'S' :: (ds ++ '/' :: 'E' :: (es ++ ')' :: rest))) = false := by
  have hrw : ('(' :: 'S' :: (ds ++ '/' :: 'E' :: (es ++ ')' :: rest)))
      = ('(' :: 'S' :: (ds ++ '/' :: 'E' :: (es ++ [')']))) ++ rest := by
    simp [List.append_assoc]
  rw [hrw]
  apply hasSpaceParen_append
  · intro hmem
    simp only [List.mem_cons, List.mem_append, List.mem_singleton] at hmem
    rcases hmem with h | h | h | h | h | h | h | h
    · exact absurd h (by decide)
    · exact absurd h (by decide)
    · exact (digit_ne ' ' (hd2 ' ' h)).1 rfl
    · exact absurd h (by decide)
    · exact absurd h (by decide)
    · exact (digit_ne ' ' (he2 ' ' h)).1 rfl
    · exact absurd h (by decide)
    · exact absurd h (List.not_mem_nil ' ')
  · exact hasSpaceParen_of_no_paren rest hrp

/-- The character-list decomposition of the concatenated pattern string. -/
lemma pattern_data (base ds es rest : String) :
    (base ++ " (S" ++ ds ++ "/E" ++ es ++ ")" ++ rest).data
      = base.data ++ ' ' :: '(' :: 'S' ::
          (ds.data ++ '/' :: 'E' :: (es.data ++ ')' :: rest.data)) := by
  simp only [str_data_append]
  simp [List.append_assoc]

/-- C2: every title of the form base, space, parenthesized S-digits/E-digits is
parsed by `EPISODE_REGEX` into exactly that base and those digit groups, whose
integer conversion yields the literal decimal values; conversely, any parsed
title decomposes as such a pattern (possibly with a trailing remainder), so a
title admitting no such decomposition is rejected and the item skipped. -/
theorem title_pattern_parse :
    (∀ base ds es : String,
        '\n' ∉ base.data → ds.data ≠ [] → (∀ c ∈ ds.data, c.isDigit = true) →
        es.data ≠ [] → (∀ c ∈ es.data, c.isDigit = true) →
        episodeRegexMatch (base ++ " (S" ++ ds ++ "/E" ++ es ++ ")") = some (base, ds, es) ∧
        pyInt ds = some (Int.ofNat (digitsVal ds.data)) ∧
        pyInt es = some (Int.ofNat (digitsVal es.data)))
    ∧ (∀ title b d e : String, episodeRegexMatch title = some (b, d, e) →
        ∃ rest : List Char, title.data =
          b.data ++ ' ' :: '(' :: 'S' :: (d.data ++ '/' :: 'E' :: (e.data ++ ')' :: rest))) := by
  constructor
  · intro base ds es hnl hd1 hd2 he1 he2
    refine ⟨?_, ?_, ?_⟩
    · unfold episodeRegexMatch
      have hdata : (base ++ " (S" ++ ds ++ "/E" ++ es ++ ")").data
          = base.data ++ ' ' :: '(' :: 'S' ::
              (ds.data ++ '/' :: 'E' :: (es.data ++ ')' :: ([] : List Char))) := by
        simp only [str_data_append]
        simp [List.append_assoc]
      rw [hdata]
      rw [matchGreedy_complete base.data ds.data es.data [] hnl hd1 hd2 he1 he2
        (no_spaceParen_tail ds.data es.data [] hd2 he2 (List.not_mem_nil '('))]
      rfl
    · rw [← str_mk_data ds]
      exact pyInt_digits ds.data hd1 hd2
    · rw [← str_mk_data es]
      exact pyInt_digits es.data he1 he2
  · intro title b d e h
    unfold episodeRegexMatch at h
    rcases hmg : matchGreedy title.data with _ | g
    · rw [hmg] at h; exact Option.noConfusion h
    · rw [hmg] at h
      obtain ⟨b0, d0, e0⟩ := g
      simp only [Option.map_some'] at h
      injection h with h
      simp only [Prod.mk.injEq] at h
      obtain ⟨hb, hd, he⟩ := h
      obtain ⟨_, _, _, _, _, rest, hdec⟩ := matchGreedy_sound title.data b0 d0 e0 hmg
      refine ⟨rest, ?_⟩
      rw [← hb, ← hd, ← he]
      exact hdec

/-- C2 witness: the parse succeeds on a concrete pattern title with literal
values, and a concrete parsed title decomposes into the pattern. -/
theorem title_pattern_parse_witness :
    (episodeRegexMatch ("Foo Bar" ++ " (S" ++ "1" ++ "/E" ++ "23" ++ ")")
        = some ("Foo Bar", "1", "23") ∧
      pyInt "1" = some (Int.ofNat (digitsVal "1".data)) ∧
      pyInt "23" = some (Int.ofNat (digitsVal "23".data))) ∧
    ∃ rest : List Char, ("Foo (S1/E2) x" : String).data =
      ("Foo" : String).data ++ ' ' :: '(' :: 'S' ::
        (("1" : String).data ++ '/' :: 'E' :: (("2" : String).data ++ ')' :: rest)) :=
  ⟨title_pattern_parse.1 "Foo Bar" "1" "23" (by decide) (by decide) (by decide)
      (by decide) (by decide),
   title_pattern_parse.2 "Foo (S1/E2) x" "Foo" "1" "2" (by decide)⟩

/-- C10: the regex is anchored at the start only, so trailing text after the
parenthetical is accepted; the greedy base group makes the parser take the
season and episode of the last parenthetical when several occur. -/
theorem title_pattern_unanchored_greedy :
    (∀ base ds es rest : String,
        '\n' ∉ base.data → ds.data ≠ [] → (∀ c ∈ ds.data, c.isDigit = true) →
        es.data ≠ [] → (∀ c ∈ es.data, c.isDigit = true) → '(' ∉ rest.data →
        episodeRegexMatch (base ++ " (S" ++ ds ++ "/E" ++ es ++ ")" ++ rest)
          = some (base, ds, es))
    ∧ episodeRegexMatch "A (S1/E2) (S3/E4)" = some ("A (S1/E2)", "3", "4") := by
  constructor
  · intro base ds es rest hnl hd1 hd2 he1 he2 hrp
    unfold episodeRegexMatch
    rw [pattern_data base ds es rest]
    rw [matchGreedy_complete base.data ds.data es.data rest.data hnl hd1 hd2 he1 he2
      (no_spaceParen_tail ds.data es.data rest.data hd2 he2 hrp)]
    rfl
  · decide

/-- C10 witness: a concrete title with trailing text still parses, keeping the
base before the parenthetical. -/
theorem title_pattern_unanchored_greedy_witness :
    episodeRegexMatch ("Foo" ++ " (S" ++ "1" ++ "/E" ++ "2" ++ ")" ++ " trailing")
      = some ("Foo", "1", "2") :=
  title_pattern_unanchored_greedy.1 "Foo" "1" "2" " trailing" (by decide) (by decide)
    (by decide) (by decide) (by decide) (by decide)

/-- C3: the age filter accepts exactly the publication timestamps at or after
the cutoff `now` minus `max-age` days (the boundary itself accepted), rejects
strictly older ones, and an unparsable publication date makes the item loop
skip the item with a warning, producing no filesystem or shell effect. -/
theorem age_filter_boundary_and_malformed_date :
    (∀ now maxAge pub : Int, tooOld now maxAge pub = false ↔ now - maxAge * 86400 ≤ pub)
    ∧ (∀ now maxAge : Int, tooOld now maxAge (now - maxAge * 86400) = false)
    ∧ (∀ now maxAge pub : Int, pub < now - maxAge * 86400 → tooOld now maxAge pub = true)
    ∧ (∀ (parseDate : String → Option Int) (now : Int) (fs : String → Bool)
         (runStatus : String → Int) (cfg : ProgramConfig) (out rate t c p l : String)
         (b d e : String),
        episodeRegexMatch t = some (b, d, e) → parseDate p = none →
        processItem parseDate now fs runStatus cfg out rate ⟨some t, some c, some p, some l⟩
          = (ItemOutcome.malformedDate,
             [Event.logWarn ("Could not parse publication date for " ++ sQ ++ t ++ sQ ++ ". Skipping.")])) := by
  refine ⟨?_, ?_, ?_, ?_⟩
  · intro now maxAge pub
    simp only [tooOld, decide_eq_false_iff_not, not_lt]
  · intro now maxAge
    simp only [tooOld, decide_eq_false_iff_not, not_lt]
    exact le_refl _
  · intro now maxAge pub h
    simp only [tooOld, decide_eq_true_eq]
    exact h
  · intro pd now fs run cfg out rate t c p l b d e hm hpd
    obtain ⟨_, _, _, _, hpyd, hpye⟩ := episodeRegexMatch_groups t b d e hm
    simp only [processItem, hm, hpyd, hpye, hpd]

/-- C3 witness: the boundary timestamp is accepted, a strictly older one
rejected, and a concrete item with an unparsable date is skipped with the
warning. -/
theorem age_filter_boundary_and_malformed_date_witness :
    (tooOld 1000000 3 ((1000000 : Int) - 3 * 86400) = false
      ↔ (1000000 : Int) - 3 * 86400 ≤ (1000000 : Int) - 3 * 86400)
    ∧ tooOld 1000000 3 ((1000000 : Int) - 3 * 86400) = false
    ∧ tooOld 1000000 3 ((1000000 : Int) - 3 * 86400 - 1) = true
    ∧ processItem (fun _ => none) 1000000 (fun _ => false) (fun _ => 0)
        ⟨"T", 0, 0, 365⟩ "/out" "" ⟨some "T (S1/E2)", some "T", some "bad date", some "x.mp4"⟩
        = (ItemOutcome.malformedDate,
           [Event.logWarn ("Could not parse publication date for " ++ sQ ++ "T (S1/E2)" ++ sQ ++ ". Skipping.")]) :=
  ⟨age_filter_boundary_and_malformed_date.1 1000000 3 (1000000 - 3 * 86400),
   age_filter_boundary_and_malformed_date.2.1 1000000 3,
   age_filter_boundary_and_malformed_date.2.2.1 1000000 3 (1000000 - 3 * 86400 - 1) (by omega),
   age_filter_boundary_and_malformed_date.2.2.2 (fun _ => none) 1000000 (fun _ => false)
     (fun _ => 0) ⟨"T", 0, 0, 365⟩ "/out" "" "T (S1/E2)" "T" "bad date" "x.mp4"
     "T" "1" "2" (by decide) rfl⟩

/-- C9: a title accepted by the regex always has digit groups on which the
integer conversion succeeds, so the defensive branch for a numeric parse
failure is unreachable: no input drives the item loop to that outcome. -/
theorem malformed_numbers_unreachable :
    (∀ t b d e : String, episodeRegexMatch t = some (b, d, e) →
        (pyInt d).isSome = true ∧ (pyInt e).isSome = true)
    ∧ (∀ (parseDate : String → Option Int) (now : Int) (fs : String → Bool)
         (runStatus : String → Int) (cfg : ProgramConfig) (out rate : String)
         (item : FeedItem),
        (processItem parseDate now fs runStatus cfg out rate item).1
          ≠ ItemOutcome.malformedNumbers) := by
  constructor
  · intro t b d e hm
    obtain ⟨_, _, _, _, hpyd, hpye⟩ := episodeRegexMatch_groups t b d e hm
    rw [hpyd, hpye]
    exact ⟨rfl, rfl⟩
  · intro pd now fs run cfg out rate item
    obtain ⟨ot, oc, op, ol⟩ := item
    cases ot with
    | none => simp [processItem]
    | some t =>
      cases oc with
      | none => simp [processItem]
      | some c =>
        cases op with
        | none => simp [processItem]
        | some p =>
          cases ol with
          | none => simp [processItem]
          | some l =>
            cases hm : episodeRegexMatch t with
            | none => simp [processItem, hm]
            | some g =>
              obtain ⟨b, d, e⟩ := g
              obtain ⟨_, _, _, _, hpyd, hpye⟩ := episodeRegexMatch_groups t b d e hm
              cases hdt : pd p with
              | none => simp [processItem, hm, hpyd, hpye, hdt]
              | some pub =>
                by_cases hold : tooOld now cfg.maxAgeDays pub = true
                · simp [processItem, hm, hpyd, hpye, hdt, hold]
                · simp only [processItem, hm, hpyd, hpye, hdt, Bool.not_eq_true] at hold ⊢
                  rw [hold]
                  simp only [Bool.false_eq_true, if_false, dispatchStep]
                  split
                  · simp
                  · simp

/-- C9 witness: the conversion succeeds on the groups of a concrete matched
title, and a concrete item does not reach the defensive branch. -/
theorem malformed_numbers_unreachable_witness :
    ((pyInt "7").isSome = true ∧ (pyInt "08").isSome = true)
    ∧ (processItem (fun _ => some 0) 0 (fun _ => true) (fun _ => 0)
        ⟨"T", 0, 0, 365⟩ "/out" "" ⟨some "T (S7/E08)", some "T", some "d", some "x.mp4"⟩).1
        ≠ ItemOutcome.malformedNumbers :=
  ⟨malformed_numbers_unreachable.1 "T (S7/E08)" "T" "7" "08" (by decide),
   malformed_numbers_unreachable.2 (fun _ => some 0) 0 (fun _ => true) (fun _ => 0)
     ⟨"T", 0, 0, 365⟩ "/out" "" ⟨some "T (S7/E08)", some "T", some "d", some "x.mp4"⟩⟩

/-- C5: when the resolved full path already exists, the dispatcher only logs
the already-downloaded skip: the result is exactly that one log line, with no
directory creation and no shell invocation; moreover, on a filesystem where
every path exists, the whole item loop produces no write or shell effect for
any item. -/
theorem dedup_skip_no_effects :
    (∀ (fs : String → Bool) (runStatus : String → Int) (rate link path folder fmt : String),
        fs path = true →
        dispatchStep fs runStatus rate link path folder fmt
          = (ItemOutcome.alreadyDownloaded,
             [Event.logInfo ("Already downloaded: " ++ sQ ++ fmt ++ sQ ++ ".")]))
    ∧ (∀ (fs : String → Bool) (runStatus : String → Int) (rate link path folder fmt : String),
        fs path = true →
        effectsOf (dispatchStep fs runStatus rate link path folder fmt).2 = [])
    ∧ (∀ (parseDate : String → Option Int) (now : Int) (fs : String → Bool)
         (runStatus : String → Int) (cfg : ProgramConfig) (out rate : String)
         (item : FeedItem),
        (∀ q, fs q = true) →
        effectsOf (processItem parseDate now fs runStatus cfg out rate item).2 = []) := by
  refine ⟨?_, ?_, ?_⟩
  · intro fs run rate link path folder fmt h
    simp [dispatchStep, h]
  · intro fs run rate link path folder fmt h
    simp [dispatchStep, h, effectsOf]
  · intro pd now fs run cfg out rate item hall
    obtain ⟨ot, oc, op, ol⟩ := item
    cases ot with
    | none => simp [processItem, effectsOf]
    | some t =>
      cases oc with
      | none => simp [processItem, effectsOf]
      | some c =>
        cases op with
        | none => simp [processItem, effectsOf]
        | some p =>
          cases ol with
          | none => simp [processItem, effectsOf]
          | some l =>
            cases hm : episodeRegexMatch t with
            | none => simp [processItem, hm, effectsOf]
            | some g =>
              obtain ⟨b, d, e⟩ := g
              obtain ⟨_, _, _, _, hpyd, hpye⟩ := episodeRegexMatch_groups t b d e hm
              cases hdt : pd p with
              | none => simp [processItem, hm, hpyd, hpye, hdt, effectsOf]
              | some pub =>
                by_cases hold : tooOld now cfg.maxAgeDays pub = true
                · simp [processItem, hm, hpyd, hpye, hdt, hold, effectsOf]
                · simp only [processItem, hm, hpyd, hpye, hdt, Bool.not_eq_true] at hold ⊢
                  rw [hold]
                  simp only [Bool.false_eq_true, if_false, dispatchStep, hall]
                  simp [effectsOf]

/-- C5 witness: with the target present the dispatcher yields exactly the skip
log and no effects, also through the item loop. -/
theorem dedup_skip_no_effects_witness :
    dispatchStep (fun _ => true) (fun _ => 0) "" "http://h/x.mp4" "/out/T/Season 01/f.mp4" "/out/T/Season 01" "f"
      = (ItemOutcome.alreadyDownloaded,
         [Event.logInfo ("Already downloaded: " ++ sQ ++ "f" ++ sQ ++ ".")])
    ∧ effectsOf (dispatchStep (fun _ => true) (fun _ => 0) "" "http://h/x.mp4" "/out/T/Season 01/f.mp4" "/out/T/Season 01" "f").2 = []
    ∧ effectsOf (processItem (fun _ => some 0) 0 (fun _ => true) (fun _ => 0)
        ⟨"T", 0, 0, 365⟩ "/out" "" ⟨some "T (S1/E2)", some "T", some "d", some "x.mp4"⟩).2 = [] :=
  ⟨dedup_skip_no_effects.1 (fun _ => true) (fun _ => 0) "" "http://h/x.mp4"
      "/out/T/Season 01/f.mp4" "/out/T/Season 01" "f" rfl,
   dedup_skip_no_effects.2.1 (fun _ => true) (fun _ => 0) "" "http://h/x.mp4"
      "/out/T/Season 01/f.mp4" "/out/T/Season 01" "f" rfl,
   dedup_skip_no_effects.2.2 (fun _ => some 0) 0 (fun _ => true) (fun _ => 0)
      ⟨"T", 0, 0, 365⟩ "/out" "" ⟨some "T (S1/E2)", some "T", some "d", some "x.mp4"⟩
      (fun _ => rfl)⟩

/-- C7: the dispatcher ignores the exit status of the transfer: its result is
the same for any two status oracles, the non-skip branch always ends with the
unconditional success log after the shell invocation, and no error log is ever
produced by the dispatch step. -/
theorem transfer_status_ignored :
    (∀ (fs : String → Bool) (r1 r2 : String → Int) (rate link path folder fmt : String),
        dispatchStep fs r1 rate link path folder fmt
          = dispatchStep fs r2 rate link path folder fmt)
    ∧ (∀ (fs : String → Bool) (runStatus : String → Int) (rate link path folder fmt : String),
        fs path = false →
        dispatchStep fs runStatus rate link path folder fmt
          = (ItemOutcome.dispatched,
             [Event.mkdirs folder,
              Event.logInfo ("Downloading " ++ sQ ++ fmt ++ sQ ++ " to " ++ sQ ++ path ++ sQ),
              Event.logDebug ("Executing: " ++ buildCommand rate link path),
              Event.system (buildCommand rate link path),
              Event.logSuccess ("Successfully downloaded " ++ sQ ++ fmt ++ sQ ++ ".")]))
    ∧ (∀ (fs : String → Bool) (runStatus : String → Int) (rate link path folder fmt msg : String),
        Event.logError msg ∉ (dispatchStep fs runStatus rate link path folder fmt).2) := by
  refine ⟨?_, ?_, ?_⟩
  · intro fs r1 r2 rate link path folder fmt
    rfl
  · intro fs run rate link path folder fmt h
    simp [dispatchStep, h]
  · intro fs run rate link path folder fmt msg
    by_cases h : fs path = true
    · simp [dispatchStep, h]
    · simp only [Bool.not_eq_true] at h
      simp [dispatchStep, h]

/-- C7 witness: on a concrete missing target the dispatch emits the shell call
followed by the unconditional success log, identically for two different
status oracles. -/
theorem transfer_status_ignored_witness :
    dispatchStep (fun _ => false) (fun _ => 0) "" "http://h/x.mp4" "/out/f.mp4" "/out" "f"
      = dispatchStep (fun _ => false) (fun _ => 8) "" "http://h/x.mp4" "/out/f.mp4" "/out" "f"
    ∧ dispatchStep (fun _ => false) (fun _ => 8) "" "http://h/x.mp4" "/out/f.mp4" "/out" "f"
      = (ItemOutcome.dispatched,
         [Event.mkdirs "/out",
          Event.logInfo ("Downloading " ++ sQ ++ "f" ++ sQ ++ " to " ++ sQ ++ "/out/f.mp4" ++ sQ),
          Event.logDebug ("Executing: " ++ buildCommand "" "http://h/x.mp4" "/out/f.mp4"),
          Event.system (buildCommand "" "http://h/x.mp4" "/out/f.mp4"),
          Event.logSuccess ("Successfully downloaded " ++ sQ ++ "f" ++ sQ ++ ".")])
    ∧ Event.logError "boom" ∉
        (dispatchStep (fun _ => false) (fun _ => 8) "" "http://h/x.mp4" "/out/f.mp4" "/out" "f").2 :=
  ⟨transfer_status_ignored.1 (fun _ => false) (fun _ => 0) (fun _ => 8) "" "http://h/x.mp4" "/out/f.mp4" "/out" "f",
   transfer_status_ignored.2.1 (fun _ => false) (fun _ => 8) "" "http://h/x.mp4" "/out/f.mp4" "/out" "f" rfl,
   transfer_status_ignored.2.2 (fun _ => false) (fun _ => 8) "" "http://h/x.mp4" "/out/f.mp4" "/out" "f" "boom"⟩

/-- C4: the formatted title is the dash-normalized base followed by season and
episode, the season being the feed season minus the offset with no lower
bound; the numeric rendering pads to two digits for one-digit values, keeps
two and more digits in full, and renders zero and negative values without
clamping; concrete cases: feed season 5 with offset 2 renders 03, and season
12 episode 134 renders S12E134. -/
theorem formatted_title_spec :
    (∀ feedSeason off : Int, appliedSeason feedSeason off = feedSeason - off)
    ∧ (∀ b : String, ∀ season episode : Int, formattedTitle b season episode
        = replaceDashStr b ++ " - S" ++ pad2 season ++ "E" ++ pad2 episode)
    ∧ (∀ n : Int, 0 ≤ n → n < 10 → pad2 n = "0" ++ intStr n)
    ∧ (∀ n : Int, 10 ≤ n → pad2 n = intStr n)
    ∧ (∀ n : Int, n < 0 → pad2 n = intStr n)
    ∧ pad2 (appliedSeason 5 2) = "03"
    ∧ formattedTitle "Show - Special" (appliedSeason 12 0) 134 = "Show: Special - S12E134" := by
  refine ⟨?_, ?_, ?_, ?_, ?_, ?_, ?_⟩
  · intro s o; rfl
  · intro b s e; rfl
  · intro n h0 h10
    have hn : ¬ n < 0 := by omega
    have habs : n.natAbs < 10 := by omega
    rw [pad2, if_neg hn]
    rw [intStr, if_neg hn]
    rw [if_pos]
    show (natStr n.natAbs).data.length < 2
    rw [natStr]
    show (natStrGo (n.natAbs + 1) n.natAbs).length < 2
    rw [natStrGo_single n.natAbs habs]
    simp
  · intro n h10
    have hn : ¬ n < 0 := by omega
    have habs : 10 ≤ n.natAbs := by omega
    rw [pad2, if_neg hn, intStr, if_neg hn]
    rw [if_neg]
    intro hlt
    have h2 := natStrGo_len_ge2 (n.natAbs + 1) n.natAbs (by omega) habs
    have hlt2 : (natStrGo (n.natAbs + 1) n.natAbs).length < 2 := hlt
    omega
  · intro n hn
    rw [pad2, if_pos hn, intStr, if_pos hn]
  · decide
  · decide

/-- C4 witness: the pad behaviors at one-digit, multi-digit and negative
season values. -/
theorem formatted_title_spec_witness :
    pad2 7 = "0" ++ intStr 7 ∧ pad2 134 = intStr 134 ∧ pad2 (-3) = intStr (-3) :=
  ⟨formatted_title_spec.2.2.1 7 (by omega) (by omega),
   formatted_title_spec.2.2.2.1 134 (by omega),
   formatted_title_spec.2.2.2.2.1 (-3) (by omega)⟩

/-- C8: the feed request is the fixed base URL followed by the URL-encoded
query, the query being the program name prefixed by a hash mark, with the
minimum-length filter appended exactly when it is positive, and a ten-second
timeout; concretely the query for Tatort with minimum length 20 encodes as
expected. -/
theorem feed_query_request :
    (∀ (name : String) (minLength : Int), 0 < minLength →
        fetchRequest name minLength
          = ⟨SEARCH_BASE_URL ++ urlQuote ("# " ++ name ++ " >" ++ intStr minLength), 10⟩)
    ∧ (∀ (name : String) (minLength : Int), ¬ 0 < minLength →
        fetchRequest name minLength = ⟨SEARCH_BASE_URL ++ urlQuote ("# " ++ name), 10⟩)
    ∧ (∀ (name : String) (minLength : Int), (fetchRequest name minLength).timeout = 10)
    ∧ (fetchRequest "Tatort" 20).url
        = "https://mediathekviewweb.de/feed?query=%23%20Tatort%20%3E20" := by
  refine ⟨?_, ?_, ?_, ?_⟩
  · intro name m h
    simp [fetchRequest, searchQuery, h]
  · intro name m h
    simp [fetchRequest, searchQuery, h]
  · intro name m
    rfl
  · decide

/-- C8 witness: both branches of the minimum-length filter at concrete
values. -/
theorem feed_query_request_witness :
    fetchRequest "Tatort" 20
      = ⟨SEARCH_BASE_URL ++ urlQuote ("# " ++ "Tatort" ++ " >" ++ intStr 20), 10⟩
    ∧ fetchRequest "Tatort" 0 = ⟨SEARCH_BASE_URL ++ urlQuote ("# " ++ "Tatort"), 10⟩ :=
  ⟨feed_query_request.1 "Tatort" 20 (by omega),
   feed_query_request.2.1 "Tatort" 0 (by omega)⟩

/-- C6 counter-evidence: the source URL is embedded in the command line
without escaping, so a link containing single quotes breaks out of its quoted
position and injects words into the invoked command, here an extra `rm -rf x`;
by contrast the output path is quote-escaped and survives intact. -/
theorem command_injection_via_link :
    shellSplit (buildCommand "" ("u" ++ sQ ++ " rm -rf x " ++ sQ) "/out/f.mp4")
      = some ["wget", "u", "rm", "-rf", "x", "", "-O", "/out/f.mp4"]
    ∧ shellSplit (buildCommand "" ("u" ++ sQ ++ " rm -rf x " ++ sQ) "/out/f.mp4")
      ≠ some ["wget", "u" ++ sQ ++ " rm -rf x " ++ sQ, "-O", "/out/f.mp4"]
    ∧ shellSplit (buildCommand "" "http://h/f.mp4" ("/out/a" ++ sQ ++ "b.mp4"))
      = some ["wget", "http://h/f.mp4", "-O", "/out/a" ++ sQ ++ "b.mp4"] := by
  refine ⟨by decide, by decide, by decide⟩

/-- C1 counter-evidence: after any successful configuration load the main
routine resolves the unbound name `logging` in the rate-limit branch and
terminates with a `NameError` before any program is processed, for every
configuration, argument vector and environment. -/
theorem main_crashes_before_processing :
    (∀ (cfg : Config) (args : Args) (parseDate : String → Option Int) (now : Int)
       (fs : String → Bool) (runStatus : String → Int)
       (fetch : String → Except String (List FeedItem)),
        mainRun cfg args parseDate now fs runStatus fetch
          = Except.error ("NameError: name " ++ sQ ++ "logging" ++ sQ ++ " is not defined"))
    ∧ "logging" ∉ boundNames := by
  constructor
  · intro cfg args pd now fs run fetch
    have h : resolveName "logging"
        = Except.error ("NameError: name " ++ sQ ++ "logging" ++ sQ ++ " is not defined") := by
      rw [resolveName, if_neg]
      decide
    simp [mainRun, h]
  · decide
